import Mathlib

/-
Verification development for the hierarchical legal-section parser
(`SectionNavigator` / `LegalSection` in `src/utils/section_navigator.py`).

The parser is embedded shallowly:
* Every regex in the source is anchored `^...$` with `re.MULTILINE`, and the
  final `(.*?)$` forces each match to extend to the end of its line, so
  `finditer` yields at most one match per line, in line order, each starting
  at column 0.  A pattern is therefore embedded as a per-line matcher
  `List Char → Option <groups>`, and a page's match sequence is the
  line-ordered `filterMap` of that matcher over the page's lines.
* Adjacent character classes inside each regex are disjoint (digits vs.
  whitespace vs. punctuation vs. letters), so greedy matching never
  backtracks and each class is embedded as a `List.span`.
* Python's `\d` (Unicode digits) is modelled as ASCII 0-9 plus the
  Arabic-Indic digits U+0660..U+0669 — the only digit scripts occurring in
  the documents this parser targets.
* The mutable tree with `current_section` / `current_subsection` cursors is
  embedded as a pure scan state: `current_section` is always the most
  recently created section (the last child added to the root) and
  `current_subsection` the most recently created subsection of that section,
  so the state keeps the finished children (`closed`) plus the still-open
  cursor nodes, and the tree is assembled when a cursor is superseded.
* Python object identity is modelled by a fresh `id : Nat` drawn from a
  counter at each `LegalSection(...)` construction.
* The per-document `try/except` in `load_document` guards the external PDF
  collaborator (`fitz`) and UI/translation calls.  Extraction failure
  (`fitz.open` / page iteration raising, before anything is registered) is
  modelled by the page-text input being `none`.  One guarded call runs
  after the registry insertion of line 213: `doc.close()` at line 216, so
  the method can report failure with the tree already registered;
  a failing close is modelled by the `closeFails` flag.
-/

/-! ## Character classes and Python string helpers -/

/-- Python `\s` (the whitespace characters relevant line-locally). -/
def isSpaceChar (c : Char) : Bool :=
  c = ' ' || c = '\t' || c = '\n' || c = '\r' || c = '\x0b' || c = '\x0c'

/-- Arabic-Indic digits `٠`..`٩` (U+0660..U+0669), the class `[٠-٩]`. -/
def isArabicIndicDigit (c : Char) : Bool :=
  0x660 ≤ c.toNat && c.toNat ≤ 0x669

/-- Python `\d` restricted to the digit scripts these documents use. -/
def isUniDigit (c : Char) : Bool :=
  c.isDigit || isArabicIndicDigit c

/-- The class `[A-Z]`. -/
def isAsciiUpper (c : Char) : Bool :=
  'A' ≤ c && c ≤ 'Z'

/-- The class `[أ-ي]` (U+0623..U+064A) used by the lettered subsection patterns. -/
def isArabicLetter (c : Char) : Bool :=
  0x623 ≤ c.toNat && c.toNat ≤ 0x64A

/-- The class `[؀-ۿ]` (U+0600..U+06FF) used by the fallback heading pattern. -/
def isArabicBlock (c : Char) : Bool :=
  0x600 ≤ c.toNat && c.toNat ≤ 0x6FF

/-- Split a character list at every occurrence of a separator character
(Python `str.split(sep)` for a one-character separator; also used for the
line splitting performed by `re.MULTILINE` anchors). -/
def splitOnCharL (sep : Char) : List Char → List (List Char)
  | [] => [[]]
  | c :: cs =>
    if c = sep then [] :: splitOnCharL sep cs
    else
      match splitOnCharL sep cs with
      | [] => [[c]]
      | l :: ls => (c :: l) :: ls

/-- The lines of a page text, as scanned by the `re.MULTILINE` patterns. -/
def pyLines (s : String) : List (List Char) :=
  splitOnCharL '\n' s.toList

/-- Python `str.strip()`. -/
def pyStrip (s : String) : String :=
  (((s.toList.dropWhile isSpaceChar).reverse.dropWhile isSpaceChar).reverse).asString

/-- Python `s[:50]` (slicing counts code points, as `List Char` does). -/
def pyTake50 (s : String) : String :=
  (s.toList.take 50).asString

/-! ## The pattern library (§ lines 61-82, 171-177 of the source)

Each matcher embeds one compiled regex, applied to a single line. -/

/-- Match a literal keyword case-insensitively at the start of the line,
returning the matched characters (original case) and the rest. -/
def matchKeywordIC : List Char → List Char → Option (List Char × List Char)
  | [], l => some ([], l)
  | _ :: _, [] => none
  | k :: ks, c :: cs =>
    if c.toLower = k.toLower then
      match matchKeywordIC ks cs with
      | some (m, r) => some (c :: m, r)
      | none => none
    else none

/-- Match a literal keyword exactly at the start of the line, returning the rest. -/
def dropLit : List Char → List Char → Option (List Char)
  | [], l => some l
  | _ :: _, [] => none
  | k :: ks, c :: cs => if c = k then dropLit ks cs else none

/-- Try a list of exact keywords in alternation order. -/
def matchKeywordList (kws : List String) (l : List Char) : Option (String × List Char) :=
  match kws with
  | [] => none
  | k :: ks =>
    match dropLit k.toList l with
    | some r => some (k, r)
    | none => matchKeywordList ks l

/-- Captured groups of a section pattern: the first two patterns capture
(type, number, heading), the third captures (marker, content). -/
inductive SecGroups where
  | g3 (ty num heading : String)
  | g2 (marker content : String)

/-- Pattern `^(Article|Section|Chapter)\s+(\d+[a-zA-Z]*)[:.\s]*(.*?)$`
with `re.IGNORECASE`. -/
def matchSec1 (l : List Char) : Option SecGroups :=
  match matchKeywordIC "Article".toList l <|> matchKeywordIC "Section".toList l <|>
      matchKeywordIC "Chapter".toList l with
  | none => none
  | some (kw, r1) =>
    let (ws, r2) := r1.span isSpaceChar
    if ws = [] then none else
    let (ds, r3) := r2.span isUniDigit
    if ds = [] then none else
    let (als, r4) := r3.span Char.isAlpha
    let (_, r5) := r4.span (fun c => c = ':' || c = '.' || isSpaceChar c)
    some (.g3 kw.asString (ds ++ als).asString r5.asString)

/-- Pattern `^(المادة|الفصل|القسم|مادة|فصل)\s*(\d+[٠-٩]*)[:.\s-]*(.*?)$`. -/
def matchSec2 (l : List Char) : Option SecGroups :=
  match matchKeywordList ["المادة", "الفصل", "القسم", "مادة", "فصل"] l with
  | none => none
  | some (kw, r1) =>
    let (_, r2) := r1.span isSpaceChar
    let (ds, r3) := r2.span isUniDigit
    if ds = [] then none else
    let (ds2, r4) := r3.span isArabicIndicDigit
    let (_, r5) := r4.span (fun c => c = ':' || c = '.' || c = '-' || isSpaceChar c)
    some (.g3 kw (ds ++ ds2).asString r5.asString)

/-- The alternative `\(\s*\d+\s*\)` of the third section pattern. -/
def matchParenNum (l : List Char) : Option (List Char × List Char) :=
  match l with
  | '(' :: r1 =>
    let (w1, r2) := r1.span isSpaceChar
    let (ds, r3) := r2.span isUniDigit
    if ds = [] then none else
    let (w2, r4) := r3.span isSpaceChar
    match r4 with
    | ')' :: r5 => some ('(' :: (w1 ++ ds ++ w2 ++ [')']), r5)
    | _ => none
  | _ => none

/-- The alternative `\d+\s*[\.-]` of the third section pattern. -/
def matchNumPunct (l : List Char) : Option (List Char × List Char) :=
  let (ds, r1) := l.span isUniDigit
  if ds = [] then none else
  let (ws, r2) := r1.span isSpaceChar
  match r2 with
  | c :: r3 => if c = '.' || c = '-' then some (ds ++ ws ++ [c], r3) else none
  | [] => none

/-- Pattern `^(\(\s*\d+\s*\)|\d+\s*[\.-])\s*(.*?)$`. -/
def matchSec3 (l : List Char) : Option SecGroups :=
  match matchParenNum l <|> matchNumPunct l with
  | none => none
  | some (marker, r1) =>
    let (_, r2) := r1.span isSpaceChar
    some (.g2 marker.asString r2.asString)

/-- The list `section_patterns` of the source, in source order. -/
def section_patterns : List (List Char → Option SecGroups) :=
  [matchSec1, matchSec2, matchSec3]

/-- Pattern `^(\d+[a-zA-Z٠-٩]*)[\.\s-]+(.*?)$`. -/
def matchSub1 (l : List Char) : Option (String × String) :=
  let (ds, r1) := l.span isUniDigit
  if ds = [] then none else
  let (als, r2) := r1.span (fun c => c.isAlpha || isArabicIndicDigit c)
  let (sep, r3) := r2.span (fun c => c = '.' || c = '-' || isSpaceChar c)
  if sep = [] then none else
  some ((ds ++ als).asString, r3.asString)

/-- The shared shape `\(\s*X\s*\)` of the two parenthesised subsection
patterns; `withDigits` selects the `[أ-ي١٢٣٤٥٦٧٨٩٠]` class over `[أ-ي]`. -/
def matchParenLetter (withDigits : Bool) (l : List Char) : Option (List Char × List Char) :=
  match l with
  | '(' :: r1 =>
    let (w1, r2) := r1.span isSpaceChar
    match r2 with
    | x :: r3 =>
      if isArabicLetter x || (withDigits && isArabicIndicDigit x) then
        let (w2, r4) := r3.span isSpaceChar
        match r4 with
        | ')' :: r5 => some ('(' :: (w1 ++ (x :: (w2 ++ [')']))), r5)
        | _ => none
      else none
    | [] => none
  | _ => none

/-- Pattern `^(\(\s*[أ-ي١٢٣٤٥٦٧٨٩٠]\s*\))\s*(.*?)$`. -/
def matchSub2 (l : List Char) : Option (String × String) :=
  match matchParenLetter true l with
  | none => none
  | some (m, r1) =>
    let (_, r2) := r1.span isSpaceChar
    some (m.asString, r2.asString)

/-- Pattern `^(\(\s*[أ-ي]\s*\))\s*(.*?)$`. -/
def matchSub3 (l : List Char) : Option (String × String) :=
  match matchParenLetter false l with
  | none => none
  | some (m, r1) =>
    let (_, r2) := r1.span isSpaceChar
    some (m.asString, r2.asString)

/-- The list `subsection_patterns` of the source, in source order. -/
def subsection_patterns : List (List Char → Option (String × String)) :=
  [matchSub1, matchSub2, matchSub3]

/-- Fallback pattern `^(\d+)[\.:\s-](.*?)$` (exactly one separator char). -/
def matchFb1 (l : List Char) : Option (String × String) :=
  let (ds, r1) := l.span isUniDigit
  if ds = [] then none else
  match r1 with
  | c :: r2 =>
    if c = '.' || c = ':' || c = '-' || isSpaceChar c then some (ds.asString, r2.asString)
    else none
  | [] => none

/-- Fallback pattern `^([A-Z][A-Z\s]+|[؀-ۿ][؀-ۿ\s]+)[:\.\s-]*(.*?)$`. -/
def matchFb2 (l : List Char) : Option (String × String) :=
  match l with
  | c :: r1 =>
    if isAsciiUpper c then
      let (run, r2) := r1.span (fun d => isAsciiUpper d || isSpaceChar d)
      if run = [] then none else
      let (_, r3) := r2.span (fun d => d = ':' || d = '.' || d = '-' || isSpaceChar d)
      some ((c :: run).asString, r3.asString)
    else if isArabicBlock c then
      let (run, r2) := r1.span (fun d => isArabicBlock d || isSpaceChar d)
      if run = [] then none else
      let (_, r3) := r2.span (fun d => d = ':' || d = '.' || d = '-' || isSpaceChar d)
      some ((c :: run).asString, r3.asString)
    else none
  | [] => none

/-- The list `fallback_patterns` of the source, in source order. -/
def fallback_patterns : List (List Char → Option (String × String)) :=
  [matchFb1, matchFb2]

/-! ## The `LegalSection` tree (source lines 13-36) -/

/-- One structural unit of a legal document.  `parent` back-references are
represented by tree position (each node is owned by exactly one `children`
list); Python object identity is represented by `id`. -/
structure LegalSection where
  id : Nat
  title : String
  content : String
  level : Nat
  children : List LegalSection
  source_doc : String
  page_num : Nat

/-- The `add_child` method: append a child (the parent back-pointer is
implicit in the tree). -/
def add_child (s child : LegalSection) : LegalSection :=
  { s with children := s.children ++ [child] }

/-- A placeholder node used only as a `getD` default in concrete statements. -/
def noSec : LegalSection :=
  { id := 0, title := "", content := "", level := 0, children := [], source_doc := "",
    page_num := 0 }

/-! ## Title composition (source lines 96-112, 131-138, 187-192) -/

/-- Compose a section title from the captured groups (source lines 98-112). -/
def secTitle : SecGroups → String
  | .g3 ty num heading =>
    let ht := pyStrip heading
    if ht = "" then ty ++ " " ++ num else ty ++ " " ++ num ++ ": " ++ ht
  | .g2 marker content => marker ++ " " ++ pyTake50 (pyStrip content) ++ "..."

/-- Compose a subsection title: content truncated to 50 characters with
`"..."` appended only when the content exceeds 50 characters
(source lines 136-138).  `content` is the already-stripped group 2. -/
def subTitleOf (num content : String) : String :=
  num ++ " " ++ (pyTake50 content ++ (if content.length > 50 then "..." else ""))

/-- Compose a fallback section title (source line 192); `titleText` is the
raw group 2, stripped here as at source line 189. -/
def fbTitle (marker titleText : String) : String :=
  let t := pyStrip titleText
  if t = "" then marker else marker ++ ": " ++ pyTake50 t ++ "..."

/-! ## The primary scan state (source lines 84-157)

`current_section` is always the most recently created section — the last
child added to the root — and `current_subsection` the most recently created
subsection of that section, so the scan state keeps the finished children
(`closed`) plus the open cursors, and a cursor is assembled into the tree
when it is superseded (or at the end of the scan). -/

/-- The open `current_section` cursor, with its own open
`current_subsection` cursor. -/
structure CurSec where
  id : Nat
  title : String
  content : String
  page_num : Nat
  closedSubs : List LegalSection
  curSub : Option LegalSection

/-- State of the primary page scan. -/
structure ScanSt where
  rootContent : String
  closed : List LegalSection
  cur : Option CurSec
  sectionsFound : Bool
  nextId : Nat

/-- Finished subsection list of an open section (the open subsection, if
any, goes last — it was created last). -/
def closeSub (c : CurSec) : List LegalSection :=
  match c.curSub with
  | none => c.closedSubs
  | some s => c.closedSubs ++ [s]

/-- Assemble the open section cursor into a `LegalSection` (level 1). -/
def assembleCur (doc : String) (c : CurSec) : LegalSection :=
  { id := c.id, title := c.title, content := c.content, level := 1,
    children := closeSub c, source_doc := doc, page_num := c.page_num }

/-- The root's children so far: finished sections plus the open one. -/
def closeCur (doc : String) (st : ScanSt) : List LegalSection :=
  match st.cur with
  | none => st.closed
  | some c => st.closed ++ [assembleCur doc c]

/-- Source lines 114-124: create a new level-1 section, add it to the root,
make it the current section, clear the current subsection, and record that
sections were found (line 95). -/
def addSection (doc : String) (pn : Nat) (t : String) (st : ScanSt) : ScanSt :=
  { rootContent := st.rootContent,
    closed := closeCur doc st,
    cur := some { id := st.nextId, title := t, content := "", page_num := pn,
                  closedSubs := [], curSub := none },
    sectionsFound := true,
    nextId := st.nextId + 1 }

/-- Source lines 136-147: create a new level-2 subsection under the current
section and make it the current subsection.  Only reachable when a current
section exists (the pass is guarded, line 127). -/
def addSubsection (doc : String) (pn : Nat) (title content : String) (st : ScanSt) : ScanSt :=
  match st.cur with
  | none => st
  | some c =>
    { st with
      cur := some { c with
        closedSubs := closeSub c,
        curSub := some { id := st.nextId, title := title, content := content, level := 2,
                         children := [], source_doc := doc, page_num := pn } },
      nextId := st.nextId + 1 }

/-- Source lines 149-157: append the page text (prefixed by a newline) to
the deepest active cursor — subsection, else section, else root. -/
def appendPageText (text : String) (st : ScanSt) : ScanSt :=
  match st.cur with
  | none => { st with rootContent := st.rootContent ++ "\n" ++ text }
  | some c =>
    match c.curSub with
    | none => { st with cur := some { c with content := c.content ++ "\n" ++ text } }
    | some s =>
      { st with cur := some { c with curSub := some { s with content := s.content ++ "\n" ++ text } } }

/-- One line under one section pattern (the body of the `finditer` loop,
source lines 94-124). -/
def secLineStep (doc : String) (pn : Nat) (pat : List Char → Option SecGroups)
    (st : ScanSt) (line : List Char) : ScanSt :=
  match pat line with
  | some g => addSection doc pn (secTitle g) st
  | none => st

/-- Source lines 92-124: all section patterns, in order, each over all
lines of the page in order. -/
def sectionPass (doc : String) (pn : Nat) (lines : List (List Char)) (st : ScanSt) : ScanSt :=
  section_patterns.foldl (fun st pat => lines.foldl (secLineStep doc pn pat) st) st

/-- One line under one subsection pattern (source lines 130-147). -/
def subLineStep (doc : String) (pn : Nat) (pat : List Char → Option (String × String))
    (st : ScanSt) (line : List Char) : ScanSt :=
  match pat line with
  | some (num, raw) =>
    let co := pyStrip raw
    addSubsection doc pn (subTitleOf num co) co st
  | none => st

/-- Source lines 126-147: if a current section exists, all subsection
patterns, in order, each over all lines of the page in order. -/
def subsectionPass (doc : String) (pn : Nat) (lines : List (List Char)) (st : ScanSt) : ScanSt :=
  match st.cur with
  | none => st
  | some _ => subsection_patterns.foldl (fun st pat => lines.foldl (subLineStep doc pn pat) st) st

/-- Process one `(page_num, page_text)` pair (source loop body, lines 88-157). -/
def processPage (doc : String) (st : ScanSt) (p : Nat × String) : ScanSt :=
  let lines := pyLines p.2
  appendPageText p.2 (subsectionPass doc p.1 lines (sectionPass doc p.1 lines st))

/-- Initial scan state: root content empty, no cursors, id 0 is the root. -/
def initSt : ScanSt :=
  { rootContent := "", closed := [], cur := none, sectionsFound := false, nextId := 1 }

/-- The primary extractor pass over all pages (source lines 88-157). -/
def primaryScan (doc : String) (pages : List String) : ScanSt :=
  pages.enum.foldl (processPage doc) initSt

/-! ## The fallback detector (source lines 159-210) -/

/-- State of the fallback pass: the root's children so far, the
`sections_found` flag, and the id counter. -/
structure FbSt where
  children : List LegalSection
  sectionsFound : Bool
  nextId : Nat

/-- A level-1 section created from a fallback heuristic match
(source lines 191-198): its content is the empty string. -/
def mkFbSection (doc : String) (pn : Nat) (title : String) (i : Nat) : LegalSection :=
  { id := i, title := title, content := "", level := 1, children := [], source_doc := doc,
    page_num := pn }

/-- The page-granularity bucket section (source lines 200-209): titled by
page number in Arabic, its content is the entire page text. -/
def mkPageBucket (doc : String) (pn : Nat) (text : String) (i : Nat) : LegalSection :=
  { id := i, title := "صفحة " ++ toString (pn + 1), content := text, level := 1,
    children := [], source_doc := doc, page_num := pn }

/-- One line under one fallback pattern; the `Bool` component is the
per-page `page_sections_found` flag (source lines 183-198).  A heuristic
match does not set `sections_found`. -/
def fbLineStep (doc : String) (pn : Nat) (pat : List Char → Option (String × String))
    (acc : FbSt × Bool) (line : List Char) : FbSt × Bool :=
  match pat line with
  | some (m, tt) =>
    ({ children := acc.1.children ++ [mkFbSection doc pn (fbTitle m tt) acc.1.nextId],
       sectionsFound := acc.1.sectionsFound,
       nextId := acc.1.nextId + 1 }, true)
  | none => acc

/-- Both fallback patterns over all lines of the page, tracking
`page_sections_found`. -/
def fbMatchFold (doc : String) (pn : Nat) (lines : List (List Char)) (acc : FbSt × Bool) :
    FbSt × Bool :=
  fallback_patterns.foldl (fun acc pat => lines.foldl (fbLineStep doc pn pat) acc) acc

/-- One fallback page (source lines 179-210): run the heuristic patterns;
if neither matched and no page bucket was made before, synthesize a
page-granularity bucket and set `sections_found`. -/
def fallbackPage (doc : String) (st : FbSt) (p : Nat × String) : FbSt :=
  let res := fbMatchFold doc p.1 (pyLines p.2) (st, false)
  if !res.2 && !res.1.sectionsFound then
    { children := res.1.children ++ [mkPageBucket doc p.1 p.2 res.1.nextId],
      sectionsFound := true,
      nextId := res.1.nextId + 1 }
  else res.1

/-- The fallback detector pass over all pages. -/
def fallbackScan (doc : String) (pages : List String) (st0 : FbSt) : FbSt :=
  pages.enum.foldl (fallbackPage doc) st0

/-! ## Building the document tree (`load_document`, source lines 46-229) -/

/-- Build the document's root tree from its page texts: primary scan, then —
when no section-pattern matched anywhere — the fallback detector.  Returns
the root, the final id counter (ids `0, ..., counter - 1` were allocated,
`0` being the root), and the final `sections_found` flag. -/
def buildRoot (doc_name : String) (pages : List String) : LegalSection × Nat × Bool :=
  let st := primaryScan doc_name pages
  let children1 := closeCur doc_name st
  if st.sectionsFound then
    ({ id := 0, title := doc_name, content := st.rootContent, level := 0,
       children := children1, source_doc := doc_name, page_num := 0 }, st.nextId, true)
  else
    let fst := fallbackScan doc_name pages
      { children := children1, sectionsFound := false, nextId := st.nextId }
    ({ id := 0, title := doc_name, content := st.rootContent, level := 0,
       children := fst.children, source_doc := doc_name, page_num := 0 },
     fst.nextId, fst.sectionsFound)

/-! ## The navigator / registry (source lines 38-44, 212-288) -/

/-- Navigator state: the registry (insertion-ordered map from document name
to root, as Python's `dict`) plus the two selection cursors. -/
structure SectionNavigator where
  documents : List (String × LegalSection)
  current_doc : Option String
  current_section : Option LegalSection

/-- The empty navigator (`__init__`). -/
def initNav : SectionNavigator :=
  { documents := [], current_doc := none, current_section := none }

/-- Python `dict` insertion: replace in place if the key is present,
otherwise append. -/
def insertDoc : List (String × LegalSection) → String → LegalSection →
    List (String × LegalSection)
  | [], k, v => [(k, v)]
  | (k', v') :: rest, k, v =>
    if k' = k then (k, v) :: rest else (k', v') :: insertDoc rest k v

/-- Python `dict` lookup. -/
def lookupDoc (docs : List (String × LegalSection)) (k : String) : Option LegalSection :=
  (docs.find? (fun p => p.1 == k)).map (fun p => p.2)

/-- Source line 52: `file_path.split("/")[-1]`. -/
def docNameOf (fp : String) : String :=
  (((splitOnCharL '/' fp.toList).map (fun l => l.asString)).getLastD fp)

/-- The `load_document` method.  `extracted = none` models the external
PDF collaborator failing before any page text is produced (`fitz.open` or
the page iteration raising): the `except` path at lines 226-229 reports
failure with the registry untouched.  When extraction succeeds, the
locally built tree is inserted into the registry in a single step
(line 213), and then `doc.close()` runs at line 216 — still inside the
`try`, after the insertion — so a failing close (`closeFails = true`)
reaches the same `except` path and reports failure with the tree already
registered.  Otherwise the method returns `true` (lines 219-224: `True`
in both branches, sections found or not). -/
def load_document (nav : SectionNavigator) (file_path : String)
    (extracted : Option (List String)) (closeFails : Bool) : SectionNavigator × Bool :=
  match extracted with
  | none => (nav, false)
  | some pages =>
    let doc_name := docNameOf file_path
    let root := (buildRoot doc_name pages).1
    let nav' := { nav with documents := insertDoc nav.documents doc_name root }
    if closeFails then (nav', false) else (nav', true)

/-- The `load_documents` method: load each, count successes.  Each file
comes with its collaborator behavior (extracted page texts, close outcome). -/
def load_documents (nav : SectionNavigator)
    (files : List (String × Option (List String) × Bool)) : SectionNavigator × Nat :=
  files.foldl
    (fun acc f =>
      let r := load_document acc.1 f.1 f.2.1 f.2.2
      (r.1, acc.2 + (if r.2 then 1 else 0)))
    (nav, 0)

/-- The `get_documents` method. -/
def get_documents (nav : SectionNavigator) : List String :=
  nav.documents.map (fun p => p.1)

/-- The `select_document` method. -/
def select_document (nav : SectionNavigator) (doc_name : String) :
    SectionNavigator × Option LegalSection :=
  match lookupDoc nav.documents doc_name with
  | some root =>
    ({ nav with current_doc := some doc_name, current_section := some root }, some root)
  | none => (nav, none)

/-- The `get_sections` method: top-level sections of a document, or `[]`
for an unknown name. -/
def get_sections (nav : SectionNavigator) (doc_name : String) : List LegalSection :=
  match lookupDoc nav.documents doc_name with
  | some root => root.children
  | none => []

/-- Python `path.split(" > ")` (non-overlapping, left to right). -/
def pySplitPathL : List Char → List (List Char)
  | ' ' :: '>' :: ' ' :: rest => [] :: pySplitPathL rest
  | c :: cs =>
    match pySplitPathL cs with
    | [] => [[c]]
    | l :: ls => (c :: l) :: ls
  | [] => [[]]

/-- The path segments of a `" > "`-joined path string. -/
def pySplitPath (s : String) : List String :=
  (pySplitPathL s.toList).map (fun l => l.asString)

/-- The navigation loop of `select_section` (source lines 276-285): at each
level take the first child whose title equals the segment exactly. -/
def walkParts (s : LegalSection) : List String → Option LegalSection
  | [] => some s
  | p :: ps =>
    match s.children.find? (fun c => c.title == p) with
    | none => none
    | some c => walkParts c ps

/-- The path resolution of `select_section` on already-split segments
(source lines 268-288): a path of fewer than two segments returns the root
(line 269 never compares the first segment); otherwise walk the segments
after the first. -/
def selectParts (root : LegalSection) (parts : List String) : Option LegalSection :=
  if parts.length < 2 then some root else walkParts root parts.tail

/-- The `select_section` method (source lines 260-288).  Returns the
updated navigator (`current_section` is cached on success, line 287) and
the result; a failed lookup is the `None` return, never an exception. -/
def select_section (nav : SectionNavigator) (path : String) :
    SectionNavigator × Option LegalSection :=
  match nav.current_doc with
  | none => (nav, none)
  | some dn =>
    match lookupDoc nav.documents dn with
    | none => (nav, none)
    | some root =>
      let parts := pySplitPath path
      if parts.length < 2 then (nav, some root)
      else
        match walkParts root parts.tail with
        | none => (nav, none)
        | some sec => ({ nav with current_section := some sec }, some sec)

/-! ## Concrete claim checks -/

/-- Claim C4: loading a single-page document with page text
`"Article 1: Scope\nThis law applies..."` produces exactly one level-1 child
of the root, titled `"Article 1: Scope"`, and the text
`"This law applies..."` is accumulated into that child's content. -/
theorem scenarioA_single_article :
    ((buildRoot "law.pdf" ["Article 1: Scope\nThis law applies..."]).1.children.map
        (fun c => (c.title, c.level)) = [("Article 1: Scope", 1)])
    ∧ ∃ pre post,
        ((buildRoot "law.pdf" ["Article 1: Scope\nThis law applies..."]).1.children.getD 0
            noSec).content
          = pre ++ "This law applies..." ++ post :=
  ⟨by decide, "\nArticle 1: Scope\n", "", by decide⟩

/-- Claim C2 (counterexample): on a page containing the subsection markers
`"1. First condition"` and `"2. Second condition"` inside an already-opened
section, the extractor does create additional level-1 sections from those
same marker lines — each marker line also matches the bare-number section
pattern `^(\(\s*\d+\s*\)|\d+\s*[\.-])\s*(.*?)$`, so the root ends up with
three level-1 children instead of one. -/
theorem subsection_markers_also_open_sections :
    (buildRoot "law.pdf" ["Article 1: Scope", "1. First condition\n2. Second condition"]).1.children.map
        (fun c => (c.title, c.level))
      = [("Article 1: Scope", 1), ("1. First condition...", 1), ("2. Second condition...", 1)] := by
  decide

/-- Claim C2 (amended): on a page containing the subsection markers
`"1. First condition"` and `"2. Second condition"` after an already-opened
section, the extractor creates exactly two level-2 children, each titled
with the marker number plus the content truncated to 50 characters (with
`"..."` appended only when the content exceeds 50 characters) — but they
are attached under the most recently created level-1 section, because each
marker line also matches the bare-number section pattern and so first opens
an additional level-1 section of its own. -/
theorem subsection_scenario_amended :
    ((buildRoot "law.pdf" ["Article 1: Scope", "1. First condition\n2. Second condition"]).1.children.map
        (fun c => (c.title, c.level, c.children.length))
      = [("Article 1: Scope", 1, 0), ("1. First condition...", 1, 0), ("2. Second condition...", 1, 2)])
    ∧ ((buildRoot "law.pdf"
          ["Article 1: Scope", "1. First condition\n2. Second condition"]).1.children.getD 2
            noSec).children.map (fun c => (c.title, c.level, c.content))
      = [("1 First condition", 2, "First condition"),
         ("2 Second condition", 2, "Second condition\n1. First condition\n2. Second condition")] := by
  constructor
  · decide
  · decide

/-- Claim C3 (counterexample): on the single page
`"1. Alpha\nArticle 2: Beta"` the marker `"1. Alpha"` occurs on the first
line, before `"Article 2: Beta"` on the second line, and both create
children of the root — yet the child for `"Article 2: Beta"` comes first,
because the `Article` pattern is applied to the whole page before the
bare-number pattern: children are ordered pattern-by-pattern, not by
position in the text. -/
theorem children_not_in_text_order :
    (pyLines "1. Alpha\nArticle 2: Beta" = ["1. Alpha".toList, "Article 2: Beta".toList])
    ∧ (matchSec3 "1. Alpha".toList).isSome = true
    ∧ (matchSec1 "Article 2: Beta".toList).isSome = true
    ∧ (buildRoot "law.pdf" ["1. Alpha\nArticle 2: Beta"]).1.children.map (fun c => c.title)
      = ["Article 2: Beta", "1. Alpha..."] := by
  refine ⟨by decide, by decide, by decide, by decide⟩

/-! ## Path lookup -/

/-- Claim C9: `select_section` never validates the first (root) path
segment: a one-element path returns the root whatever that element is
(source line 269 returns the root whenever `len(parts) < 2`), and for
longer paths the loop starts at index 1 (line 276), so the first segment is
never compared — replacing it by any other string gives the same result. -/
theorem first_path_segment_ignored (t : LegalSection) (a b : String) (rest : List String) :
    selectParts t [a] = some t
    ∧ selectParts t (a :: rest) = selectParts t (b :: rest) := by
  refine ⟨rfl, ?_⟩
  cases rest <;> rfl

/-- The relation justifying a lookup result: `chainTo s ps n` holds when
`n` is reached from `s` by descending, for each successive segment of
`ps`, to a child whose title equals that segment exactly
(case-sensitively). -/
def chainTo : LegalSection → List String → LegalSection → Prop
  | s, [], n => n = s
  | s, p :: ps, n => ∃ c, c ∈ s.children ∧ c.title = p ∧ chainTo c ps n

theorem walkParts_some_chainTo :
    ∀ (ps : List String) (s n : LegalSection), walkParts s ps = some n → chainTo s ps n := by
  intro ps
  induction ps with
  | nil =>
    intro s n h
    simp only [walkParts, Option.some.injEq] at h
    simpa [chainTo] using h.symm
  | cons p ps ih =>
    intro s n h
    simp only [walkParts] at h
    cases hf : s.children.find? (fun c => c.title == p) with
    | none => rw [hf] at h; exact absurd h (by simp)
    | some c =>
      rw [hf] at h
      exact ⟨c, List.mem_of_find?_eq_some hf,
        by simpa using List.find?_some hf, ih c n h⟩

theorem walkParts_none_stuck :
    ∀ (ps : List String) (s : LegalSection), walkParts s ps = none →
      ∃ pre seg suf, ps = pre ++ seg :: suf ∧
        ∃ m, chainTo s pre m ∧ ∀ c ∈ m.children, c.title ≠ seg := by
  intro ps
  induction ps with
  | nil => intro s h; exact absurd h (by simp [walkParts])
  | cons p ps ih =>
    intro s h
    simp only [walkParts] at h
    cases hf : s.children.find? (fun c => c.title == p) with
    | none =>
      refine ⟨[], p, ps, rfl, s, by simp [chainTo], ?_⟩
      intro c hc
      have := List.find?_eq_none.mp hf c hc
      simpa using this
    | some c =>
      rw [hf] at h
      obtain ⟨pre, seg, suf, hdec, m, hchain, hstuck⟩ := ih c h
      exact ⟨p :: pre, seg, suf, by simp [hdec],
        m, ⟨c, List.mem_of_find?_eq_some hf, by simpa using List.find?_some hf, hchain⟩, hstuck⟩

/-- Claim C6: for a selected document and a path of two or more segments,
`select_section` is total (it returns `none` rather than raising): whenever
it returns a node, that node is reached by exact case-sensitive title
matches for every segment after the first; and whenever it returns `none`,
there is a level at which no child of the node reached so far bears the
segment as its title. -/
theorem select_section_path_spec (nav : SectionNavigator) (dn : String) (t : LegalSection)
    (path : String) (h1 : nav.current_doc = some dn) (h2 : lookupDoc nav.documents dn = some t)
    (hlen : 2 ≤ (pySplitPath path).length) :
    (∀ n, (select_section nav path).2 = some n → chainTo t (pySplitPath path).tail n)
    ∧ ((select_section nav path).2 = none →
        ∃ pre seg suf, (pySplitPath path).tail = pre ++ seg :: suf ∧
          ∃ m, chainTo t pre m ∧ ∀ c ∈ m.children, c.title ≠ seg) := by
  have hnotlt : ¬ (pySplitPath path).length < 2 := by omega
  constructor
  · intro n h
    simp only [select_section, h1, h2, hnotlt, if_false] at h
    cases hw : walkParts t (pySplitPath path).tail with
    | none => rw [hw] at h; exact absurd h (by simp)
    | some sec =>
      rw [hw] at h
      simp only at h
      cases h
      exact walkParts_some_chainTo _ _ _ hw
  · intro h
    simp only [select_section, h1, h2, hnotlt, if_false] at h
    cases hw : walkParts t (pySplitPath path).tail with
    | none => exact walkParts_none_stuck _ _ hw
    | some sec => rw [hw] at h; exact absurd h (by simp)

/-- A concrete one-child document tree used to instantiate the path-lookup
theorems. -/
def childA : LegalSection :=
  { id := 1, title := "A", content := "", level := 1, children := [], source_doc := "d",
    page_num := 0 }

/-- A concrete root for the path-lookup witnesses. -/
def docT0 : LegalSection :=
  { id := 0, title := "d", content := "", level := 0, children := [childA], source_doc := "d",
    page_num := 0 }

/-- A navigator with `docT0` registered and selected. -/
def nav0 : SectionNavigator :=
  { documents := [("d", docT0)], current_doc := some "d", current_section := none }

/-- Witness for claim C6 at the concrete navigator `nav0` and path `"d > A"`. -/
theorem select_section_path_spec_witness :
    (∀ n, (select_section nav0 "d > A").2 = some n → chainTo docT0 (pySplitPath "d > A").tail n)
    ∧ ((select_section nav0 "d > A").2 = none →
        ∃ pre seg suf, (pySplitPath "d > A").tail = pre ++ seg :: suf ∧
          ∃ m, chainTo docT0 pre m ∧ ∀ c ∈ m.children, c.title ≠ seg) :=
  select_section_path_spec nav0 "d" docT0 "d > A" rfl rfl (by decide)

/-- Claim C7 (amended): for every tree and every child of its root that is
the unique child bearing its title, `selectParts` on the two-element path
(root title, child title) returns exactly that child.  (Uniqueness is
needed because the walk takes the first title match, source line 278-282.) -/
theorem select_by_path_round_trip (t c : LegalSection) (hc : c ∈ t.children)
    (huniq : ∀ d ∈ t.children, d.title = c.title → d = c) :
    selectParts t [t.title, c.title] = some c := by
  have hsome : (t.children.find? (fun d => d.title == c.title)).isSome := by
    rw [List.find?_isSome]
    exact ⟨c, hc, by simp⟩
  obtain ⟨d, hd⟩ := Option.isSome_iff_exists.mp hsome
  have hdmem := List.mem_of_find?_eq_some hd
  have hdtitle : d.title = c.title := by simpa using List.find?_some hd
  have hdc : d = c := huniq d hdmem hdtitle
  subst hdc
  simp [selectParts, walkParts, hd]

/-- Witness for claim C7 (amended) at the concrete tree `docT0`. -/
theorem select_by_path_round_trip_witness :
    selectParts docT0 [docT0.title, childA.title] = some childA :=
  select_by_path_round_trip docT0 childA (by simp [docT0])
    (fun d hd _ => by simpa [docT0] using hd)

/-- The tree loaded from a two-page document whose pages both read
`"Article 1: Scope"`: its root has two children with identical titles. -/
def dupRoot : LegalSection :=
  (buildRoot "dup.pdf" ["Article 1: Scope", "Article 1: Scope"]).1

/-- Claim C7 (counterexample): in a loaded document with two identically
titled children (ids 1 and 2, from pages 0 and 1), `selectParts` on the
path (root title, second child's title) returns the first child (id 1),
not the second child that was appended — so the round trip does not return
"the same node object" for every appended child. -/
theorem round_trip_fails_on_duplicate_titles :
    (dupRoot.children.map (fun c => (c.title, c.id, c.page_num))
      = [("Article 1: Scope", 1, 0), ("Article 1: Scope", 2, 1)])
    ∧ ((selectParts dupRoot [dupRoot.title, (dupRoot.children.getD 1 noSec).title]).map
        (fun c => c.id) = some 1)
    ∧ selectParts dupRoot [dupRoot.title, (dupRoot.children.getD 1 noSec).title]
        ≠ some (dupRoot.children.getD 1 noSec) := by
  refine ⟨by decide, by decide, ?_⟩
  intro h
  exact absurd (congrArg (Option.map (fun c => c.id)) h) (by decide)

/-! ## Registry atomicity -/

theorem lookupDoc_cons (k' : String) (v' : LegalSection) (rest : List (String × LegalSection))
    (d : String) :
    lookupDoc ((k', v') :: rest) d = if k' = d then some v' else lookupDoc rest d := by
  by_cases h : k' = d
  · subst h
    rw [if_pos rfl]
    simp [lookupDoc, List.find?_cons_of_pos]
  · rw [if_neg h]
    simp only [lookupDoc]
    rw [List.find?_cons_of_neg _ (by simpa using h)]

theorem lookupDoc_insertDoc_self (docs : List (String × LegalSection)) (k : String)
    (v : LegalSection) : lookupDoc (insertDoc docs k v) k = some v := by
  induction docs with
  | nil => simp [insertDoc, lookupDoc_cons]
  | cons p rest ih =>
    obtain ⟨k', v'⟩ := p
    by_cases h : k' = k
    · subst h
      simp [insertDoc, lookupDoc_cons]
    · simp [insertDoc, h, lookupDoc_cons, ih]

theorem lookupDoc_insertDoc_other (docs : List (String × LegalSection)) (k d : String)
    (v : LegalSection) (hd : d ≠ k) :
    lookupDoc (insertDoc docs k v) d = lookupDoc docs d := by
  induction docs with
  | nil => simp [insertDoc, lookupDoc_cons, lookupDoc, Ne.symm hd]
  | cons p rest ih =>
    obtain ⟨k', v'⟩ := p
    by_cases h : k' = k
    · subst h
      simp [insertDoc, lookupDoc_cons, Ne.symm hd]
    · simp only [insertDoc, if_neg h, lookupDoc_cons, ih]

/-- Claim C8 (counterexample): `load_document` can report failure with the
registry already updated for the document's identifier.  The `doc.close()`
call at source line 216 is inside the `try` but runs after the registry
insertion at line 213, so when extraction succeeds and only the close
raises, the method returns `False` while the fully built tree is already
registered: here the load of `"x.pdf"` reports failure, yet the name
resolves to the built tree where before the load it resolved to nothing. -/
theorem load_failure_with_registry_updated :
    (load_document initNav "x.pdf" (some ["Article 1: Scope"]) true).2 = false
    ∧ (lookupDoc initNav.documents "x.pdf").isSome = false
    ∧ lookupDoc (load_document initNav "x.pdf" (some ["Article 1: Scope"]) true).1.documents
        "x.pdf" = some (buildRoot "x.pdf" ["Article 1: Scope"]).1 := by
  refine ⟨rfl, rfl, ?_⟩
  exact lookupDoc_insertDoc_self _ _ _

/-- Claim C8 (amended): failures of the external page-text extraction —
which occur before the registry insertion — leave the navigator, including
the registry, completely unchanged; whenever extraction succeeds, the
locally built tree is inserted into the registry as a single insertion
under the document's name (every other name resolves as before),
regardless of whether the load then reports success; and the load after a
successful extraction reports failure exactly when the PDF close call,
which runs after the insertion, fails — in that one case failure is
reported with the tree already registered. -/
theorem load_registry_atomic (nav : SectionNavigator) (fp : String)
    (extracted : Option (List String)) (closeFails : Bool) :
    (extracted = none →
        (load_document nav fp extracted closeFails).2 = false
        ∧ (load_document nav fp extracted closeFails).1 = nav)
    ∧ (∀ pages, extracted = some pages →
        ((load_document nav fp extracted closeFails).2 = true ↔ closeFails = false)
        ∧ lookupDoc (load_document nav fp extracted closeFails).1.documents (docNameOf fp)
            = some (buildRoot (docNameOf fp) pages).1
        ∧ ∀ d, d ≠ docNameOf fp →
            lookupDoc (load_document nav fp extracted closeFails).1.documents d
              = lookupDoc nav.documents d) := by
  cases extracted with
  | none =>
    refine ⟨fun _ => ⟨rfl, rfl⟩, ?_⟩
    intro pages h
    exact absurd h (by simp)
  | some pages0 =>
    constructor
    · intro h
      exact absurd h (by simp)
    · intro pages h
      obtain rfl : pages0 = pages := by injection h
      have hins : (load_document nav fp (some pages0) closeFails).1.documents
          = insertDoc nav.documents (docNameOf fp) (buildRoot (docNameOf fp) pages0).1 := by
        cases closeFails <;> rfl
      refine ⟨?_, ?_, ?_⟩
      · cases closeFails <;> simp [load_document]
      · rw [hins]
        exact lookupDoc_insertDoc_self _ _ _
      · intro d hd
        rw [hins]
        exact lookupDoc_insertDoc_other _ _ _ _ hd

/-- Witness for claim C8 (amended): an extraction failure on `"x/y.pdf"`
reports failure and leaves the empty navigator untouched. -/
theorem load_registry_atomic_witness :
    (load_document initNav "x/y.pdf" none false).2 = false
    ∧ (load_document initNav "x/y.pdf" none false).1 = initNav :=
  (load_registry_atomic initNav "x/y.pdf" none false).1 rfl

/-! ## Order of the root's children -/

/-- The titles of the root's children accumulated so far by the scan. -/
def rootTitles (doc : String) (st : ScanSt) : List String :=
  (closeCur doc st).map (fun c => c.title)

theorem foldlPreserve {α β : Type} (P : β → Prop) (f : β → α → β)
    (h : ∀ b a, P b → P (f b a)) : ∀ (l : List α) (b : β), P b → P (l.foldl f b) := by
  intro l
  induction l with
  | nil => intro b hb; exact hb
  | cons a as ih => intro b hb; exact ih (f b a) (h b a hb)

theorem rootTitles_addSection (doc : String) (pn : Nat) (t : String) (st : ScanSt) :
    rootTitles doc (addSection doc pn t st) = rootTitles doc st ++ [t] := by
  cases hc : st.cur <;>
    simp [rootTitles, closeCur, addSection, assembleCur, closeSub, hc]

theorem rootTitles_addSubsection (doc : String) (pn : Nat) (ti co : String) (st : ScanSt) :
    rootTitles doc (addSubsection doc pn ti co st) = rootTitles doc st := by
  cases hc : st.cur <;>
    simp [rootTitles, closeCur, addSubsection, assembleCur, hc]

theorem rootTitles_appendPageText (text : String) (doc : String) (st : ScanSt) :
    rootTitles doc (appendPageText text st) = rootTitles doc st := by
  cases hc : st.cur with
  | none => simp [rootTitles, closeCur, appendPageText, hc]
  | some c =>
    cases hs : c.curSub <;>
      simp [rootTitles, closeCur, appendPageText, assembleCur, closeSub, hc, hs]

theorem sectionsFound_addSubsection (doc : String) (pn : Nat) (ti co : String) (st : ScanSt) :
    (addSubsection doc pn ti co st).sectionsFound = st.sectionsFound := by
  cases hc : st.cur <;> simp [addSubsection, hc]

theorem sectionsFound_appendPageText (text : String) (st : ScanSt) :
    (appendPageText text st).sectionsFound = st.sectionsFound := by
  cases hc : st.cur with
  | none => simp [appendPageText, hc]
  | some c => cases hs : c.curSub <;> simp [appendPageText, hc, hs]

theorem rootTitles_secLineFold (doc : String) (pn : Nat) (pat : List Char → Option SecGroups) :
    ∀ (lines : List (List Char)) (st : ScanSt),
      rootTitles doc (lines.foldl (secLineStep doc pn pat) st)
        = rootTitles doc st ++ lines.filterMap (fun l => Option.map secTitle (pat l)) := by
  intro lines
  induction lines with
  | nil => intro st; simp
  | cons l ls ih =>
    intro st
    cases hp : pat l with
    | none => simp [List.foldl_cons, secLineStep, hp, ih]
    | some g =>
      simp [List.foldl_cons, secLineStep, hp, ih, rootTitles_addSection]

theorem rootTitles_secPatFold (doc : String) (pn : Nat) (lines : List (List Char)) :
    ∀ (pats : List (List Char → Option SecGroups)) (st : ScanSt),
      rootTitles doc
          (pats.foldl (fun st pat => lines.foldl (secLineStep doc pn pat) st) st)
        = rootTitles doc st
          ++ pats.flatMap (fun pat => lines.filterMap (fun l => Option.map secTitle (pat l))) := by
  intro pats
  induction pats with
  | nil => intro st; simp
  | cons pat ps ih =>
    intro st
    simp [List.foldl_cons, ih, rootTitles_secLineFold, List.append_assoc]

theorem rootTitles_subLineFold (doc : String) (pn : Nat)
    (pat : List Char → Option (String × String)) :
    ∀ (lines : List (List Char)) (st : ScanSt),
      rootTitles doc (lines.foldl (subLineStep doc pn pat) st) = rootTitles doc st := by
  intro lines
  induction lines with
  | nil => intro st; simp
  | cons l ls ih =>
    intro st
    cases hp : pat l with
    | none => simp [List.foldl_cons, subLineStep, hp, ih]
    | some g => simp [List.foldl_cons, subLineStep, hp, ih, rootTitles_addSubsection]

theorem rootTitles_subsectionPass (doc : String) (pn : Nat) (lines : List (List Char))
    (st : ScanSt) : rootTitles doc (subsectionPass doc pn lines st) = rootTitles doc st := by
  cases hc : st.cur with
  | none => simp [subsectionPass, hc]
  | some c =>
    simp only [subsectionPass, hc]
    have : ∀ (pats : List (List Char → Option (String × String))) (st : ScanSt),
        rootTitles doc (pats.foldl (fun st pat => lines.foldl (subLineStep doc pn pat) st) st)
          = rootTitles doc st := by
      intro pats
      induction pats with
      | nil => intro st; simp
      | cons pat ps ih => intro st; simp [List.foldl_cons, ih, rootTitles_subLineFold]
    exact this _ _

/-- The child titles that one page contributes to the root: each section
pattern, in priority order, over the page's lines in text order. -/
def pageSecTitles (p : Nat × String) : List String :=
  section_patterns.flatMap (fun pat => (pyLines p.2).filterMap (fun l => Option.map secTitle (pat l)))

theorem rootTitles_processPage (doc : String) (st : ScanSt) (p : Nat × String) :
    rootTitles doc (processPage doc st p) = rootTitles doc st ++ pageSecTitles p := by
  simp [processPage, pageSecTitles, rootTitles_appendPageText, rootTitles_subsectionPass,
    sectionPass, rootTitles_secPatFold]

theorem rootTitles_pageFold (doc : String) :
    ∀ (l : List (Nat × String)) (st : ScanSt),
      rootTitles doc (l.foldl (processPage doc) st)
        = rootTitles doc st ++ l.flatMap pageSecTitles := by
  intro l
  induction l with
  | nil => intro st; simp
  | cons p ps ih =>
    intro st
    simp [List.foldl_cons, ih, rootTitles_processPage, List.append_assoc]

/-- Claim C3 (amended): whenever the primary extractor found sections, the
titles of the root's children are, in order: for each page in page order,
for each section pattern in the library's priority order, the matches of
that pattern on the page's lines in text order.  Within one pattern text
order is preserved, but across patterns the library's priority order
governs, not the position of the markers in the text. -/
theorem children_pattern_major_within_pattern_text_order (doc : String) (pages : List String)
    (h : (primaryScan doc pages).sectionsFound = true) :
    (buildRoot doc pages).1.children.map (fun c => c.title)
      = pages.enum.flatMap pageSecTitles := by
  have hscan : rootTitles doc (primaryScan doc pages) = pages.enum.flatMap pageSecTitles := by
    have := rootTitles_pageFold doc pages.enum initSt
    simpa [primaryScan, rootTitles, closeCur, initSt] using this
  simp only [buildRoot, h, if_pos]
  exact hscan

/-- Witness for claim C3 (amended) on a two-marker page whose markers are
matched by different patterns. -/
theorem children_pattern_major_witness :
    (buildRoot "law.pdf" ["1. Alpha\nArticle 2: Beta"]).1.children.map (fun c => c.title)
      = (["1. Alpha\nArticle 2: Beta"].enum).flatMap pageSecTitles :=
  children_pattern_major_within_pattern_text_order "law.pdf" ["1. Alpha\nArticle 2: Beta"]
    (by decide)

/-! ## The fallback guarantee -/

theorem primary_found_titles_nonempty (doc : String) (pages : List String)
    (h : (primaryScan doc pages).sectionsFound = true) :
    rootTitles doc (primaryScan doc pages) ≠ [] := by
  have main : ∀ (l : List (Nat × String)) (st : ScanSt),
      (st.sectionsFound = true → rootTitles doc st ≠ []) →
      ((l.foldl (processPage doc) st).sectionsFound = true →
        rootTitles doc (l.foldl (processPage doc) st) ≠ []) := by
    intro l
    refine foldlPreserve (fun st => st.sectionsFound = true → rootTitles doc st ≠ [])
      (processPage doc) ?_ l
    intro st p hst
    have hsec : ∀ (st : ScanSt),
        (st.sectionsFound = true → rootTitles doc st ≠ []) →
        ((sectionPass doc p.1 (pyLines p.2) st).sectionsFound = true →
          rootTitles doc (sectionPass doc p.1 (pyLines p.2) st) ≠ []) := by
      intro st hst
      refine foldlPreserve (fun st => st.sectionsFound = true → rootTitles doc st ≠ [])
        (fun st pat => (pyLines p.2).foldl (secLineStep doc p.1 pat) st) ?_ _ st hst
      intro st pat hst
      refine foldlPreserve (fun st => st.sectionsFound = true → rootTitles doc st ≠ [])
        (secLineStep doc p.1 pat) ?_ _ st hst
      intro st line hst
      cases hp : pat line with
      | none => simpa [secLineStep, hp] using hst
      | some g =>
        intro _
        simp [secLineStep, hp, rootTitles_addSection]
    have hsub : ∀ (st : ScanSt),
        (st.sectionsFound = true → rootTitles doc st ≠ []) →
        ((subsectionPass doc p.1 (pyLines p.2) st).sectionsFound = true →
          rootTitles doc (subsectionPass doc p.1 (pyLines p.2) st) ≠ []) := by
      intro st hst
      cases hc : st.cur with
      | none => simpa [subsectionPass, hc] using hst
      | some c =>
        simp only [subsectionPass, hc]
        refine foldlPreserve (fun st => st.sectionsFound = true → rootTitles doc st ≠ [])
          (fun st pat => (pyLines p.2).foldl (subLineStep doc p.1 pat) st) ?_ _ st hst
        intro st pat hst
        refine foldlPreserve (fun st => st.sectionsFound = true → rootTitles doc st ≠ [])
          (subLineStep doc p.1 pat) ?_ _ st hst
        intro st line hst
        cases hp : pat line with
        | none => simpa [subLineStep, hp] using hst
        | some g =>
          simp only [subLineStep, hp]
          intro hflag
          rw [rootTitles_addSubsection]
          exact hst (by rw [← sectionsFound_addSubsection doc p.1 (subTitleOf g.1 (pyStrip g.2)) (pyStrip g.2) st]; exact hflag)
    intro hflag
    simp only [processPage] at hflag ⊢
    rw [rootTitles_appendPageText]
    rw [sectionsFound_appendPageText] at hflag
    exact hsub _ (hsec _ hst) hflag
  intro hti
  have := main pages.enum initSt (by intro h0; exact absurd h0 (by simp [initSt])) h
  exact this hti

theorem fbFold_extend (doc : String) (pn : Nat) (pat : List Char → Option (String × String)) :
    ∀ (lines : List (List Char)) (acc : FbSt × Bool),
      ∃ d, (lines.foldl (fbLineStep doc pn pat) acc).1.children = acc.1.children ++ d := by
  intro lines
  induction lines with
  | nil => intro acc; exact ⟨[], by simp⟩
  | cons l ls ih =>
    intro acc
    obtain ⟨d, hd⟩ := ih (fbLineStep doc pn pat acc l)
    cases hp : pat l with
    | none => exact ⟨d, by simpa [List.foldl_cons, fbLineStep, hp] using hd⟩
    | some g =>
      refine ⟨[mkFbSection doc pn (fbTitle g.1 g.2) acc.1.nextId] ++ d, ?_⟩
      rw [List.foldl_cons, hd]
      simp [fbLineStep, hp]

theorem fbFold_flag (doc : String) (pn : Nat) (pat : List Char → Option (String × String)) :
    ∀ (lines : List (List Char)) (acc : FbSt × Bool),
      (lines.foldl (fbLineStep doc pn pat) acc).1.sectionsFound = acc.1.sectionsFound := by
  intro lines
  induction lines with
  | nil => intro acc; rfl
  | cons l ls ih =>
    intro acc
    rw [List.foldl_cons, ih]
    cases hp : pat l with
    | none => simp [fbLineStep, hp]
    | some g => simp [fbLineStep, hp]

theorem fbFold_pageFound (doc : String) (pn : Nat)
    (pat : List Char → Option (String × String)) (lines : List (List Char)) (acc : FbSt × Bool)
    (hacc : acc.2 = true → acc.1.children ≠ []) :
    (lines.foldl (fbLineStep doc pn pat) acc).2 = true →
      (lines.foldl (fbLineStep doc pn pat) acc).1.children ≠ [] := by
  refine foldlPreserve (fun b => b.2 = true → b.1.children ≠ []) (fbLineStep doc pn pat) ?_
    lines acc hacc
  intro b line hb
  cases hp : pat line with
  | none => simpa [fbLineStep, hp] using hb
  | some g =>
    intro _
    simp [fbLineStep, hp]

theorem fbMatchFold_extend (doc : String) (pn : Nat) (lines : List (List Char)) :
    ∀ (pats : List (List Char → Option (String × String))) (acc : FbSt × Bool),
      ∃ d, ((pats.foldl (fun acc pat => lines.foldl (fbLineStep doc pn pat) acc) acc).1.children
        = acc.1.children ++ d) := by
  intro pats
  induction pats with
  | nil => intro acc; exact ⟨[], by simp⟩
  | cons pat ps ih =>
    intro acc
    obtain ⟨d1, hd1⟩ := fbFold_extend doc pn pat lines acc
    obtain ⟨d2, hd2⟩ := ih (lines.foldl (fbLineStep doc pn pat) acc)
    exact ⟨d1 ++ d2, by rw [List.foldl_cons, hd2, hd1, List.append_assoc]⟩

theorem fbMatchFold_flag (doc : String) (pn : Nat) (lines : List (List Char)) :
    ∀ (pats : List (List Char → Option (String × String))) (acc : FbSt × Bool),
      ((pats.foldl (fun acc pat => lines.foldl (fbLineStep doc pn pat) acc) acc).1.sectionsFound
        = acc.1.sectionsFound) := by
  intro pats
  induction pats with
  | nil => intro acc; rfl
  | cons pat ps ih =>
    intro acc
    rw [List.foldl_cons, ih, fbFold_flag]

theorem fbMatchFold_pageFound (doc : String) (pn : Nat) (lines : List (List Char))
    (pats : List (List Char → Option (String × String))) (acc : FbSt × Bool)
    (hacc : acc.2 = true → acc.1.children ≠ []) :
    ((pats.foldl (fun acc pat => lines.foldl (fbLineStep doc pn pat) acc) acc).2 = true →
      (pats.foldl (fun acc pat => lines.foldl (fbLineStep doc pn pat) acc) acc).1.children ≠ []) := by
  refine foldlPreserve (fun b => b.2 = true → b.1.children ≠ [])
    (fun acc pat => lines.foldl (fbLineStep doc pn pat) acc) ?_ pats acc hacc
  intro b pat hb
  exact fbFold_pageFound doc pn pat lines b hb

theorem fallbackPage_children_nonempty (doc : String) (st : FbSt) (p : Nat × String)
    (h : st.sectionsFound = false) : (fallbackPage doc st p).children ≠ [] := by
  have hmono := fbMatchFold_pageFound doc p.1 (pyLines p.2) fallback_patterns (st, false)
    (fun hf => absurd hf (by simp))
  have hflag := fbMatchFold_flag doc p.1 (pyLines p.2) fallback_patterns (st, false)
  simp only [fallbackPage]
  set res := fbMatchFold doc p.1 (pyLines p.2) (st, false) with hres
  have hmono' : res.2 = true → res.1.children ≠ [] := by rw [hres]; exact hmono
  have hflag' : res.1.sectionsFound = false := by rw [hres]; exact hflag.trans h
  by_cases h2 : res.2 = true
  · rw [if_neg (by simp [h2])]
    exact hmono' h2
  · have h2' : res.2 = false := by simpa using h2
    rw [if_pos (by simp [h2', hflag'])]
    simp

theorem fallbackPage_children_extend (doc : String) (st : FbSt) (p : Nat × String) :
    ∃ d, (fallbackPage doc st p).children = st.children ++ d := by
  obtain ⟨d, hd⟩ := fbMatchFold_extend doc p.1 (pyLines p.2) fallback_patterns (st, false)
  simp only [fallbackPage]
  set res := fbMatchFold doc p.1 (pyLines p.2) (st, false) with hres
  have hd' : res.1.children = st.children ++ d := by rw [hres]; exact hd
  by_cases hc : (!res.2 && !res.1.sectionsFound) = true
  · rw [if_pos hc]
    exact ⟨d ++ [mkPageBucket doc p.1 p.2 res.1.nextId], by
      show res.1.children ++ [mkPageBucket doc p.1 p.2 res.1.nextId] = st.children ++ (d ++ _)
      rw [hd', List.append_assoc]⟩
  · rw [if_neg hc]
    exact ⟨d, hd'⟩

theorem buildRoot_children_nonempty (doc : String) (pages : List String) (h : pages ≠ []) :
    (buildRoot doc pages).1.children ≠ [] := by
  by_cases hf : (primaryScan doc pages).sectionsFound = true
  · have hti := primary_found_titles_nonempty doc pages hf
    simp only [buildRoot, hf, if_pos]
    intro hcc
    exact hti (by simp [rootTitles, hcc])
  · have hf' : (primaryScan doc pages).sectionsFound = false := by simpa using hf
    simp only [buildRoot, hf']
    simp only [Bool.false_eq_true, if_false]
    obtain ⟨p, rest, rfl⟩ := List.exists_cons_of_ne_nil h
    rw [fallbackScan, List.enum_cons]
    rw [List.foldl_cons]
    refine foldlPreserve (fun fbst => fbst.children ≠ []) (fallbackPage doc) ?_ _ _ ?_
    · intro b a hb
      obtain ⟨d, hd⟩ := fallbackPage_children_extend doc b a
      rw [hd]
      simp [hb]
    · exact fallbackPage_children_nonempty doc _ _ rfl

/-- Claim C1: loading any document with at least one page succeeds, and the
resulting tree's root has at least one child — either the primary extractor
attached a section, or the fallback detector attached heuristic sections,
or the page-bucket path attached a node titled by page number — so
`get_sections` on that document returns a non-empty list. -/
theorem load_document_top_sections_nonempty (nav : SectionNavigator) (fp : String)
    (pages : List String) (h : pages ≠ []) :
    (load_document nav fp (some pages) false).2 = true
    ∧ get_sections (load_document nav fp (some pages) false).1 (docNameOf fp) ≠ [] := by
  refine ⟨rfl, ?_⟩
  have hroot := buildRoot_children_nonempty (docNameOf fp) pages h
  simp only [load_document, get_sections, Bool.false_eq_true, if_false]
  rw [lookupDoc_insertDoc_self]
  exact hroot

/-- Witness for claim C1 on a concrete one-page document. -/
theorem load_document_top_sections_nonempty_witness :
    (load_document initNav "a.pdf" (some ["plain prose"]) false).2 = true
    ∧ get_sections (load_document initNav "a.pdf" (some ["plain prose"]) false).1
        (docNameOf "a.pdf") ≠ [] :=
  load_document_top_sections_nonempty initNav "a.pdf" ["plain prose"] (by decide)

/-! ## Tree well-formedness: unique parents, no duplication, no orphans

Every `LegalSection(...)` construction in the source draws a fresh `id`
from the scan's counter (the root gets id 0).  If the preorder id list of
the loaded tree is exactly `List.range counter`, then every allocated node
occurs in the tree exactly once: it has exactly one parent, appears exactly
once in that parent's children, no node is shared or duplicated between
children lists, and no allocated node is orphaned. -/

def preIdsL : List LegalSection → List Nat
  | [] => []
  | c :: cs => c.id :: (preIdsL c.children ++ preIdsL cs)
termination_by l => sizeOf l
decreasing_by
  all_goals cases c
  all_goals simp
  all_goals omega

/-- The preorder id list of a tree. -/
def preIds (s : LegalSection) : List Nat :=
  s.id :: preIdsL s.children

theorem preIdsL_nil : preIdsL [] = [] := by
  simp [preIdsL]

theorem preIdsL_cons (c : LegalSection) (cs : List LegalSection) :
    preIdsL (c :: cs) = preIds c ++ preIdsL cs := by
  simp [preIdsL, preIds]

theorem preIdsL_append : ∀ (a b : List LegalSection), preIdsL (a ++ b) = preIdsL a ++ preIdsL b := by
  intro a b
  induction a with
  | nil => simp [preIdsL_nil]
  | cons c cs ih => simp [preIdsL_cons, ih]

/-- The preorder ids of the root's children accumulated so far by the scan. -/
def scanIds (doc : String) (st : ScanSt) : List Nat :=
  preIdsL (closeCur doc st)

theorem scanIds_addSection (doc : String) (pn : Nat) (t : String) (st : ScanSt) :
    scanIds doc (addSection doc pn t st) = scanIds doc st ++ [st.nextId] := by
  cases hc : st.cur <;>
    simp [scanIds, closeCur, addSection, assembleCur, closeSub, hc, preIdsL_append,
      preIds, preIdsL]

theorem scanIds_addSubsection_some (doc : String) (pn : Nat) (ti co : String) (st : ScanSt)
    (c : CurSec) (hc : st.cur = some c) :
    scanIds doc (addSubsection doc pn ti co st) = scanIds doc st ++ [st.nextId] := by
  simp [scanIds, closeCur, addSubsection, assembleCur, closeSub, hc, preIdsL_append,
    preIds, preIdsL]

theorem addSubsection_none (doc : String) (pn : Nat) (ti co : String) (st : ScanSt)
    (hc : st.cur = none) : addSubsection doc pn ti co st = st := by
  simp [addSubsection, hc]

theorem scanIds_appendPageText (text : String) (doc : String) (st : ScanSt) :
    scanIds doc (appendPageText text st) = scanIds doc st := by
  cases hc : st.cur with
  | none => simp [scanIds, closeCur, appendPageText, hc]
  | some c =>
    cases hs : c.curSub <;>
      simp [scanIds, closeCur, appendPageText, assembleCur, closeSub, hc, hs, preIds,
        preIdsL_append, preIdsL_cons, preIdsL_nil]

theorem nextId_appendPageText (text : String) (st : ScanSt) :
    (appendPageText text st).nextId = st.nextId := by
  cases hc : st.cur with
  | none => simp [appendPageText, hc]
  | some c => cases hs : c.curSub <;> simp [appendPageText, hc, hs]

/-- The id-freshness invariant of the primary scan. -/
def ScanIdInv (doc : String) (st : ScanSt) : Prop :=
  List.range st.nextId = 0 :: scanIds doc st

theorem scanIdInv_addSection (doc : String) (pn : Nat) (t : String) (st : ScanSt)
    (h : ScanIdInv doc st) : ScanIdInv doc (addSection doc pn t st) := by
  unfold ScanIdInv at h ⊢
  rw [scanIds_addSection]
  show List.range (st.nextId + 1) = _
  rw [List.range_succ, h]
  simp

theorem scanIdInv_addSubsection (doc : String) (pn : Nat) (ti co : String) (st : ScanSt)
    (h : ScanIdInv doc st) : ScanIdInv doc (addSubsection doc pn ti co st) := by
  cases hc : st.cur with
  | none => rw [addSubsection_none doc pn ti co st hc]; exact h
  | some c =>
    unfold ScanIdInv at h ⊢
    rw [scanIds_addSubsection_some doc pn ti co st c hc]
    have : (addSubsection doc pn ti co st).nextId = st.nextId + 1 := by
      simp [addSubsection, hc]
    rw [this, List.range_succ, h]
    simp

theorem scanIdInv_appendPageText (text : String) (doc : String) (st : ScanSt)
    (h : ScanIdInv doc st) : ScanIdInv doc (appendPageText text st) := by
  unfold ScanIdInv at h ⊢
  rw [scanIds_appendPageText, nextId_appendPageText]
  exact h

theorem scanIdInv_processPage (doc : String) (st : ScanSt) (p : Nat × String)
    (h : ScanIdInv doc st) : ScanIdInv doc (processPage doc st p) := by
  have hsec : ∀ (st : ScanSt), ScanIdInv doc st →
      ScanIdInv doc (sectionPass doc p.1 (pyLines p.2) st) := by
    intro st hst
    refine foldlPreserve (ScanIdInv doc)
      (fun st pat => (pyLines p.2).foldl (secLineStep doc p.1 pat) st) ?_ _ st hst
    intro st pat hst
    refine foldlPreserve (ScanIdInv doc) (secLineStep doc p.1 pat) ?_ _ st hst
    intro st line hst
    cases hp : pat line with
    | none => simpa [secLineStep, hp] using hst
    | some g =>
      simp only [secLineStep, hp]
      exact scanIdInv_addSection doc p.1 (secTitle g) st hst
  have hsub : ∀ (st : ScanSt), ScanIdInv doc st →
      ScanIdInv doc (subsectionPass doc p.1 (pyLines p.2) st) := by
    intro st hst
    cases hc : st.cur with
    | none => simpa [subsectionPass, hc] using hst
    | some c =>
      simp only [subsectionPass, hc]
      refine foldlPreserve (ScanIdInv doc)
        (fun st pat => (pyLines p.2).foldl (subLineStep doc p.1 pat) st) ?_ _ st hst
      intro st pat hst
      refine foldlPreserve (ScanIdInv doc) (subLineStep doc p.1 pat) ?_ _ st hst
      intro st line hst
      cases hp : pat line with
      | none => simpa [subLineStep, hp] using hst
      | some g =>
        simp only [subLineStep, hp]
        exact scanIdInv_addSubsection doc p.1 _ _ st hst
  simp only [processPage]
  exact scanIdInv_appendPageText _ doc _ (hsub _ (hsec _ h))

theorem scanIdInv_primaryScan (doc : String) (pages : List String) :
    ScanIdInv doc (primaryScan doc pages) := by
  refine foldlPreserve (ScanIdInv doc) (processPage doc)
    (fun st p hst => scanIdInv_processPage doc st p hst) pages.enum initSt ?_
  show List.range 1 = 0 :: scanIds doc initSt
  simp [scanIds, closeCur, initSt, preIdsL, List.range_succ]

/-- The id-freshness invariant of the fallback pass. -/
def FbIdInv (fbst : FbSt) : Prop :=
  List.range fbst.nextId = 0 :: preIdsL fbst.children

theorem fbIdInv_lineFold (doc : String) (pn : Nat)
    (pat : List Char → Option (String × String)) (lines : List (List Char)) (acc : FbSt × Bool)
    (h : FbIdInv acc.1) : FbIdInv (lines.foldl (fbLineStep doc pn pat) acc).1 := by
  refine foldlPreserve (fun b => FbIdInv b.1) (fbLineStep doc pn pat) ?_ lines acc h
  intro b line hb
  cases hp : pat line with
  | none => simpa [fbLineStep, hp] using hb
  | some g =>
    unfold FbIdInv at hb ⊢
    simp only [fbLineStep, hp]
    rw [List.range_succ, hb, preIdsL_append]
    simp [preIds, preIdsL, mkFbSection]

theorem fbIdInv_matchFold (doc : String) (pn : Nat) (lines : List (List Char))
    (acc : FbSt × Bool) (h : FbIdInv acc.1) : FbIdInv (fbMatchFold doc pn lines acc).1 := by
  refine foldlPreserve (fun b => FbIdInv b.1)
    (fun acc pat => lines.foldl (fbLineStep doc pn pat) acc) ?_ fallback_patterns acc h
  intro b pat hb
  exact fbIdInv_lineFold doc pn pat lines b hb

theorem fbIdInv_fallbackPage (doc : String) (st : FbSt) (p : Nat × String)
    (h : FbIdInv st) : FbIdInv (fallbackPage doc st p) := by
  have hres := fbIdInv_matchFold doc p.1 (pyLines p.2) (st, false) h
  simp only [fallbackPage]
  set res := fbMatchFold doc p.1 (pyLines p.2) (st, false) with hres2
  by_cases hc : (!res.2 && !res.1.sectionsFound) = true
  · rw [if_pos hc]
    unfold FbIdInv at hres ⊢
    simp only
    rw [List.range_succ, hres, preIdsL_append]
    simp [preIds, preIdsL, mkPageBucket]
  · rw [if_neg hc]
    exact hres

theorem fbIdInv_fallbackScan (doc : String) (pages : List String) (st0 : FbSt)
    (h : FbIdInv st0) : FbIdInv (fallbackScan doc pages st0) :=
  foldlPreserve FbIdInv (fallbackPage doc)
    (fun b a hb => fbIdInv_fallbackPage doc b a hb) pages.enum st0 h

/-- Claim C5: in every loaded tree, the preorder list of node ids is
exactly `0, 1, ..., counter - 1` and in particular duplicate-free: every
node constructed during the load occurs in the tree exactly once, so every
non-root node has exactly one parent, appears exactly once in that parent's
children, no node is duplicated in or shared between children lists, and no
allocated node is orphaned. -/
theorem tree_nodes_unique_and_complete (doc : String) (pages : List String) :
    preIds (buildRoot doc pages).1 = List.range (buildRoot doc pages).2.1
    ∧ (preIds (buildRoot doc pages).1).Nodup := by
  have hmain : preIds (buildRoot doc pages).1 = List.range (buildRoot doc pages).2.1 := by
    have hprim := scanIdInv_primaryScan doc pages
    unfold ScanIdInv at hprim
    by_cases hf : (primaryScan doc pages).sectionsFound = true
    · simp only [buildRoot, hf, if_pos]
      rw [hprim]
      simp [preIds, scanIds]
    · have hf' : (primaryScan doc pages).sectionsFound = false := by simpa using hf
      simp only [buildRoot, hf', Bool.false_eq_true, if_false]
      have hfb := fbIdInv_fallbackScan doc pages
        { children := closeCur doc (primaryScan doc pages), sectionsFound := false,
          nextId := (primaryScan doc pages).nextId }
        (by unfold FbIdInv; simpa [scanIds] using hprim)
      unfold FbIdInv at hfb
      rw [hfb]
      simp [preIds]
  exact ⟨hmain, by rw [hmain]; exact List.nodup_range _⟩

/-! ## Content attribution when the fallback detector runs -/

theorem foldlNoopOfFlag {α β : Type} (flag : β → Bool) (f : β → α → β)
    (hS : ∀ b a, flag (f b a) = false → f b a = b) :
    ∀ (l : List α) (b : β), flag (l.foldl f b) = false → l.foldl f b = b := by
  intro l
  induction l with
  | nil => intro b _; rfl
  | cons a as ih =>
    intro b h
    rw [List.foldl_cons] at h ⊢
    have h1 : as.foldl f (f b a) = f b a := ih (f b a) h
    rw [h1] at h ⊢
    exact hS b a h

theorem sectionPass_noop_of_not_found (doc : String) (pn : Nat) (lines : List (List Char))
    (st : ScanSt) (h : (sectionPass doc pn lines st).sectionsFound = false) :
    sectionPass doc pn lines st = st := by
  refine foldlNoopOfFlag (fun s => s.sectionsFound)
    (fun st pat => lines.foldl (secLineStep doc pn pat) st) ?_ section_patterns st h
  intro b pat hb
  refine foldlNoopOfFlag (fun s => s.sectionsFound) (secLineStep doc pn pat) ?_ lines b hb
  intro b line hb
  cases hp : pat line with
  | none => simp [secLineStep, hp]
  | some g => exact absurd hb (by simp [secLineStep, hp, addSection])

theorem subsectionPass_sectionsFound (doc : String) (pn : Nat) (lines : List (List Char))
    (st : ScanSt) : (subsectionPass doc pn lines st).sectionsFound = st.sectionsFound := by
  cases hc : st.cur with
  | none => simp [subsectionPass, hc]
  | some c =>
    simp only [subsectionPass, hc]
    refine foldlPreserve (fun s => s.sectionsFound = st.sectionsFound)
      (fun st pat => lines.foldl (subLineStep doc pn pat) st) ?_ _ st rfl
    intro b pat hb
    refine foldlPreserve (fun s => s.sectionsFound = st.sectionsFound)
      (subLineStep doc pn pat) ?_ _ b hb
    intro b line hb
    cases hp : pat line with
    | none => simpa [subLineStep, hp] using hb
    | some g => simp [subLineStep, hp, sectionsFound_addSubsection, hb]

theorem processPage_flag_mono (doc : String) (st : ScanSt) (p : Nat × String)
    (h : st.sectionsFound = true) : (processPage doc st p).sectionsFound = true := by
  have hsec : (sectionPass doc p.1 (pyLines p.2) st).sectionsFound = true := by
    refine foldlPreserve (fun s => s.sectionsFound = true)
      (fun st pat => (pyLines p.2).foldl (secLineStep doc p.1 pat) st) ?_ _ st h
    intro b pat hb
    refine foldlPreserve (fun s => s.sectionsFound = true) (secLineStep doc p.1 pat) ?_ _ b hb
    intro b line hb
    cases hp : pat line with
    | none => simpa [secLineStep, hp] using hb
    | some g => simp [secLineStep, hp, addSection]
  simp only [processPage]
  rw [sectionsFound_appendPageText, subsectionPass_sectionsFound]
  exact hsec

theorem processPage_no_sections (doc : String) (st : ScanSt) (p : Nat × String)
    (hcur : st.cur = none) (h : (processPage doc st p).sectionsFound = false) :
    processPage doc st p = { st with rootContent := st.rootContent ++ "\n" ++ p.2 } := by
  have hflat : (sectionPass doc p.1 (pyLines p.2) st).sectionsFound = false := by
    simp only [processPage] at h
    rw [sectionsFound_appendPageText, subsectionPass_sectionsFound] at h
    exact h
  have hsp := sectionPass_noop_of_not_found doc p.1 (pyLines p.2) st hflat
  simp only [processPage, hsp]
  rw [show subsectionPass doc p.1 (pyLines p.2) st = st from by simp [subsectionPass, hcur]]
  simp [appendPageText, hcur]

theorem primary_no_sections_scan (doc : String) :
    ∀ (l : List (Nat × String)) (st : ScanSt), st.cur = none →
      (l.foldl (processPage doc) st).sectionsFound = false →
      l.foldl (processPage doc) st
        = { st with rootContent := l.foldl (fun a p => a ++ "\n" ++ p.2) st.rootContent } := by
  intro l
  induction l with
  | nil => intro st _ _; rfl
  | cons p ps ih =>
    intro st hcur h
    rw [List.foldl_cons] at h ⊢
    have h1 : (processPage doc st p).sectionsFound = false := by
      by_cases hx : (processPage doc st p).sectionsFound = true
      · exfalso
        have hmono := foldlPreserve (fun s => s.sectionsFound = true) (processPage doc)
          (fun b a hb => processPage_flag_mono doc b a hb) ps (processPage doc st p) hx
        rw [hmono] at h
        cases h
      · simpa using hx
    have heq := processPage_no_sections doc st p hcur h1
    rw [heq] at h ⊢
    rw [ih { st with rootContent := st.rootContent ++ "\n" ++ p.2 } hcur h]
    rfl

theorem enumFrom_foldl_snd {β : Type} (f : β → String → β) :
    ∀ (l : List String) (n : Nat) (b : β),
      (List.enumFrom n l).foldl (fun a p => f a p.2) b = l.foldl f b := by
  intro l
  induction l with
  | nil => intro n b; rfl
  | cons t ts ih => intro n b; simp [List.enumFrom, List.foldl_cons, ih]

/-- Either way a fallback child may arise: from a heuristic pattern match
(content empty) or from the page-bucket path (titled by page number, the
page's entire text as content). -/
def fbChildOK (pages : List String) (c : LegalSection) : Prop :=
  c.content = "" ∨ ∃ pn, pages.get? pn = some c.content ∧ c.title = "صفحة " ++ toString (pn + 1)

theorem fbMatchFold_children_inv (pages : List String) (doc : String) (pn : Nat)
    (lines : List (List Char)) (acc : FbSt × Bool)
    (h : ∀ c ∈ acc.1.children, fbChildOK pages c) :
    ∀ c ∈ (fbMatchFold doc pn lines acc).1.children, fbChildOK pages c := by
  refine foldlPreserve (fun b => ∀ c ∈ b.1.children, fbChildOK pages c)
    (fun acc pat => lines.foldl (fbLineStep doc pn pat) acc) ?_ fallback_patterns acc h
  intro b pat hb
  refine foldlPreserve (fun b => ∀ c ∈ b.1.children, fbChildOK pages c)
    (fbLineStep doc pn pat) ?_ lines b hb
  intro b line hb
  cases hp : pat line with
  | none => simpa [fbLineStep, hp] using hb
  | some g =>
    simp only [fbLineStep, hp]
    intro c hc
    rcases List.mem_append.mp hc with hold | hnew
    · exact hb c hold
    · rcases List.mem_singleton.mp hnew with rfl
      exact Or.inl rfl

theorem fallbackPage_children_inv (pages : List String) (doc : String) (st : FbSt)
    (p : Nat × String) (hp : pages.get? p.1 = some p.2)
    (h : ∀ c ∈ st.children, fbChildOK pages c) :
    ∀ c ∈ (fallbackPage doc st p).children, fbChildOK pages c := by
  have hmid := fbMatchFold_children_inv pages doc p.1 (pyLines p.2) (st, false) h
  simp only [fallbackPage]
  set res := fbMatchFold doc p.1 (pyLines p.2) (st, false) with hres
  by_cases hc : (!res.2 && !res.1.sectionsFound) = true
  · rw [if_pos hc]
    intro c hcm
    rcases List.mem_append.mp hcm with hold | hnew
    · exact hmid c hold
    · rcases List.mem_singleton.mp hnew with rfl
      exact Or.inr ⟨p.1, hp, rfl⟩
  · rw [if_neg hc]
    exact hmid

theorem enumFrom_get? (pages : List String) :
    ∀ (l : List String) (n : Nat), (∀ i, l.get? i = pages.get? (n + i)) →
      ∀ p ∈ List.enumFrom n l, pages.get? p.1 = some p.2 := by
  intro l
  induction l with
  | nil => intro n _ p hp; exact absurd hp (by simp [List.enumFrom])
  | cons t ts ih =>
    intro n hn p hp
    rcases List.mem_cons.mp hp with rfl | htail
    · have := hn 0
      simpa using this.symm
    · refine ih (n + 1) ?_ p htail
      intro i
      have := hn (i + 1)
      simpa [Nat.add_assoc, Nat.add_comm 1 i] using this

theorem foldlPreserveMem {α β : Type} (P : β → Prop) (Q : α → Prop) (f : β → α → β)
    (h : ∀ b a, Q a → P b → P (f b a)) :
    ∀ (l : List α), (∀ a ∈ l, Q a) → ∀ (b : β), P b → P (l.foldl f b) := by
  intro l
  induction l with
  | nil => intro _ b hb; exact hb
  | cons a as ih =>
    intro hq b hb
    exact ih (fun x hx => hq x (List.mem_cons_of_mem a hx)) (f b a)
      (h b a (hq a (List.mem_cons_self a as)) hb)

theorem fbScan_children_inv (doc : String) (pages : List String) (st0 : FbSt)
    (h0 : ∀ c ∈ st0.children, fbChildOK pages c) :
    ∀ c ∈ (fallbackScan doc pages st0).children, fbChildOK pages c := by
  have helem : ∀ p ∈ pages.enum, pages.get? p.1 = some p.2 :=
    enumFrom_get? pages pages 0 (fun i => by simp)
  exact foldlPreserveMem (fun b => ∀ c ∈ b.children, fbChildOK pages c)
    (fun p => pages.get? p.1 = some p.2) (fallbackPage doc)
    (fun b a hq hb => fallbackPage_children_inv pages doc b a hq hb)
    pages.enum helem st0 h0

/-- Claim C10: when the primary extractor finds no sections (so the
fallback detector runs), the page texts are accumulated on the root's
content — each page appended with a newline during the primary pass — and
every level-1 child of the final tree either came from a heuristic pattern
match and has empty content, or is a page bucket titled by page number
carrying exactly that page's text. -/
theorem fallback_heuristic_children_empty_content (doc : String) (pages : List String)
    (h : (primaryScan doc pages).sectionsFound = false) :
    (buildRoot doc pages).1.content = pages.foldl (fun a t => a ++ "\n" ++ t) ""
    ∧ ∀ c ∈ (buildRoot doc pages).1.children, fbChildOK pages c := by
  have hscan := primary_no_sections_scan doc pages.enum initSt rfl h
  have hcontent : (primaryScan doc pages).rootContent
      = pages.foldl (fun a t => a ++ "\n" ++ t) "" := by
    have h2 : (primaryScan doc pages).rootContent
        = pages.enum.foldl (fun a p => a ++ "\n" ++ p.2) "" := by
      show (pages.enum.foldl (processPage doc) initSt).rootContent
        = pages.enum.foldl (fun a p => a ++ "\n" ++ p.2) ""
      rw [hscan]
      rfl
    rw [h2, show pages.enum = List.enumFrom 0 pages from rfl]
    exact enumFrom_foldl_snd (fun a t => a ++ "\n" ++ t) pages 0 ""
  have hclose : closeCur doc (primaryScan doc pages) = [] := by
    show closeCur doc (pages.enum.foldl (processPage doc) initSt) = []
    rw [hscan]
    rfl
  constructor
  · simp only [buildRoot, h, Bool.false_eq_true, if_false]
    exact hcontent
  · simp only [buildRoot, h, Bool.false_eq_true, if_false]
    intro c hc
    refine fbScan_children_inv doc pages _ ?_ c hc
    intro c' hc'
    exact absurd hc' (by simp [hclose])

/-- Witness for claim C10 on a one-page document whose only line matches a
fallback heuristic pattern but no primary section pattern. -/
theorem fallback_heuristic_children_empty_content_witness :
    (buildRoot "fb.pdf" ["1: alpha"]).1.content
        = ["1: alpha"].foldl (fun a t => a ++ "\n" ++ t) ""
    ∧ ∀ c ∈ (buildRoot "fb.pdf" ["1: alpha"]).1.children, fbChildOK ["1: alpha"] c :=
  fallback_heuristic_children_empty_content "fb.pdf" ["1: alpha"] (by decide)

